import Mathlib

/-!
Verification of the gig-scheduling backend (src/backend/app.py).

The Python module keeps three pieces of process-wide state:
  * gigs            : dict id -> {id, date, client_email, fee}
  * gig_assignments : dict id -> set of gent ids
  * connections     : dict user_id -> set of websockets

Python dicts are modelled as association lists (`dlookup` / `dget` / `dset`
mirror `d[k]`, `d.get(k, default)` and `d[k] = v`), Python sets of strings as
`Finset String`, and raised `HTTPException`s as an `Except Err` result.  A
mutating endpoint returns the (possibly mutated) state together with the
result, so a handler that mutates before raising is modelled faithfully.
Python string comparison (lexicographic by code point) is embedded as the
executable `strLtB` / `strLeB` below, since the built-in order on `String`
does not reduce in the kernel.
-/

/-! ### Lexicographic string order (Python `<` on `str`) -/

def strLtB : List Char → List Char → Bool
  | [], [] => false
  | [], _ :: _ => true
  | _ :: _, [] => false
  | a :: s, b :: t => decide (a.toNat < b.toNat) || (decide (a.toNat = b.toNat) && strLtB s t)

def strLeB (s t : List Char) : Bool := !(strLtB t s)

/-- The order used to model Python's `sorted` on strings. -/
def StrLe (a b : String) : Prop := strLeB a.data b.data = true

lemma char_eq_of_toNat_eq {a b : Char} (h : a.toNat = b.toNat) : a = b :=
  Char.eq_of_val_eq (UInt32.eq_of_val_eq (Fin.ext h))

lemma string_eq_of_data_eq {a b : String} (h : a.data = b.data) : a = b := by
  cases a; cases b; exact congrArg String.mk h

lemma strLtB_irrefl (s : List Char) : strLtB s s = false := by
  induction s with
  | nil => rfl
  | cons a t ih => simp [strLtB, ih, Nat.lt_irrefl]

lemma strLtB_trans : ∀ s t u, strLtB s t = true → strLtB t u = true → strLtB s u = true := by
  intro s
  induction s with
  | nil =>
    intro t u hst htu
    cases t <;> cases u <;> simp_all [strLtB]
  | cons a s ih =>
    intro t u hst htu
    cases t with
    | nil => simp [strLtB] at hst
    | cons b t' =>
      cases u with
      | nil => simp [strLtB] at htu
      | cons c u' =>
        simp only [strLtB, Bool.or_eq_true, Bool.and_eq_true, decide_eq_true_eq] at *
        rcases hst with h1 | ⟨h1, h2⟩ <;> rcases htu with h3 | ⟨h3, h4⟩
        · exact Or.inl (h1.trans h3)
        · exact Or.inl (h3 ▸ h1)
        · exact Or.inl (h1 ▸ h3)
        · exact Or.inr ⟨h1.trans h3, ih t' u' h2 h4⟩

lemma strLtB_connex : ∀ s t : List Char, strLtB s t = true ∨ strLtB t s = true ∨ s = t := by
  intro s
  induction s with
  | nil =>
    intro t
    cases t with
    | nil => exact Or.inr (Or.inr rfl)
    | cons b t' => exact Or.inl rfl
  | cons a s ih =>
    intro t
    cases t with
    | nil => exact Or.inr (Or.inl rfl)
    | cons b t' =>
      rcases Nat.lt_trichotomy a.toNat b.toNat with h | h | h
      · left; simp [strLtB, h]
      · rcases ih t' with h2 | h2 | h2
        · left; simp [strLtB, h, h2]
        · right; left; simp [strLtB, h.symm, h2]
        · right; right; rw [char_eq_of_toNat_eq h, h2]
      · right; left; simp [strLtB, h]

lemma strLtB_asymm {s t : List Char} (h1 : strLtB s t = true) (h2 : strLtB t s = true) :
    False := by
  have h := strLtB_trans s t s h1 h2
  rw [strLtB_irrefl] at h
  exact Bool.noConfusion h

instance : DecidableRel StrLe := fun a b =>
  inferInstanceAs (Decidable (strLeB a.data b.data = true))

instance : IsTrans String StrLe := by
  constructor
  intro a b c hab hbc
  simp only [StrLe, strLeB, Bool.not_eq_true'] at *
  cases hca : strLtB c.data a.data with
  | false => rfl
  | true =>
    rcases strLtB_connex b.data a.data with h | h | h
    · rw [h] at hab; exact Bool.noConfusion hab
    · have h2 := strLtB_trans _ _ _ hca h
      rw [h2] at hbc; exact Bool.noConfusion hbc
    · rw [h] at hbc; rw [hca] at hbc; exact Bool.noConfusion hbc

instance : IsAntisymm String StrLe := by
  constructor
  intro a b hab hba
  simp only [StrLe, strLeB, Bool.not_eq_true'] at *
  rcases strLtB_connex a.data b.data with h | h | h
  · rw [h] at hba; exact Bool.noConfusion hba
  · rw [h] at hab; exact Bool.noConfusion hab
  · exact string_eq_of_data_eq h

instance : IsTotal String StrLe := by
  constructor
  intro a b
  simp only [StrLe, strLeB, Bool.not_eq_true']
  cases h : strLtB b.data a.data with
  | false => exact Or.inl rfl
  | true =>
    cases h2 : strLtB a.data b.data with
    | false => exact Or.inr rfl
    | true => exact absurd h2 (fun hh => strLtB_asymm h hh)

/-! ### Association lists modelling Python dicts -/

def dlookup {β : Type} : List (String × β) → String → Option β
  | [], _ => none
  | p :: r, k => if p.1 = k then some p.2 else dlookup r k

/-- Python `d.get(k, default)`. -/
def dget {β : Type} (m : List (String × β)) (k : String) (d : β) : β :=
  (dlookup m k).getD d

/-- Python `d[k] = v`: replace the binding if the key is present, append otherwise. -/
def dset {β : Type} : List (String × β) → String → β → List (String × β)
  | [], k, v => [(k, v)]
  | p :: r, k, v => if p.1 = k then (k, v) :: r else p :: dset r k v

lemma dlookup_dset_self {β : Type} (m : List (String × β)) (k : String) (v : β) :
    dlookup (dset m k v) k = some v := by
  induction m with
  | nil => simp [dset, dlookup]
  | cons p r ih =>
    by_cases h : p.1 = k
    · simp [dset, h, dlookup]
    · simp [dset, h, dlookup, ih]

lemma dlookup_dset_ne {β : Type} (m : List (String × β)) (k : String) (v : β) (k' : String)
    (h : k' ≠ k) : dlookup (dset m k v) k' = dlookup m k' := by
  induction m with
  | nil => simp [dset, dlookup, Ne.symm h]
  | cons p r ih =>
    by_cases hp : p.1 = k
    · obtain ⟨a, b⟩ := p
      cases hp
      simp [dset, dlookup, Ne.symm h]
    · simp [dset, hp, dlookup, ih]

lemma mem_dset {β : Type} {m : List (String × β)} {k : String} {v : β} {p : String × β}
    (h : p ∈ dset m k v) : p = (k, v) ∨ p ∈ m := by
  induction m with
  | nil => simpa [dset] using h
  | cons q r ih =>
    by_cases hq : q.1 = k
    · simp only [dset, hq, if_true, List.mem_cons] at h
      rcases h with h | h
      · exact Or.inl h
      · exact Or.inr (List.mem_cons_of_mem q h)
    · simp only [dset, hq, if_false, List.mem_cons] at h
      rcases h with h | h
      · exact Or.inr (h ▸ List.mem_cons_self q r)
      · rcases ih h with h2 | h2
        · exact Or.inl h2
        · exact Or.inr (List.mem_cons_of_mem q h2)

lemma dlookup_mem {β : Type} {m : List (String × β)} {k : String} {v : β}
    (h : dlookup m k = some v) : (k, v) ∈ m := by
  induction m with
  | nil => simp [dlookup] at h
  | cons p r ih =>
    by_cases hp : p.1 = k
    · simp only [dlookup, hp, if_true, Option.some.injEq] at h
      have hpv : p = (k, v) := by
        cases p
        simp_all
      exact hpv ▸ List.mem_cons_self p r
    · simp only [dlookup, hp, if_false] at h
      exact List.mem_cons_of_mem p (ih h)

lemma dset_eq_of_dlookup {β : Type} {m : List (String × β)} {k : String} {v : β}
    (h : dlookup m k = some v) : dset m k v = m := by
  induction m with
  | nil => simp [dlookup] at h
  | cons p r ih =>
    by_cases hp : p.1 = k
    · simp only [dlookup, hp, if_true, Option.some.injEq] at h
      have hpv : p = (k, v) := by
        cases p
        simp_all
      simp [dset, hp, hpv]
    · simp only [dlookup, hp, if_false] at h
      simp [dset, hp, ih h]

lemma dset_dset {β : Type} (m : List (String × β)) (k : String) (v v' : β) :
    dset (dset m k v) k v' = dset m k v' := by
  induction m with
  | nil => simp [dset]
  | cons p r ih =>
    by_cases hp : p.1 = k
    · simp [dset, hp]
    · simp [dset, hp, ih]

lemma dget_dset_self {β : Type} (m : List (String × β)) (k : String) (v d : β) :
    dget (dset m k v) k d = v := by
  simp [dget, dlookup_dset_self]

/-! ### Client-email validation

The source checks `client_email` against the anchored regular expression
^[^@]+@[^@]+\.[^@]+$ (src/backend/app.py line 59).  `email_ok` is its
executable compilation: a non-empty run of non-at characters, one at sign,
then a remainder free of at signs that matches `[^@]+\.[^@]+`. -/

/-- Remainder of the list after the first at sign, if any. -/
def after_amp : List Char → Option (List Char)
  | [] => none
  | c :: t => if c = '@' then some t else after_amp t

/-- Does the list match `.*\..+`, i.e. contain a dot with a non-empty tail after it? -/
def tail_ok : List Char → Bool
  | [] => false
  | c :: t => (decide (c = '.') && !t.isEmpty) || tail_ok t

/-- Does the list match `[^@]+\.[^@]+` once at signs are excluded separately:
a non-empty head, then a dot, then a non-empty tail. -/
def domain_ok : List Char → Bool
  | [] => false
  | _ :: t => tail_ok t

/-- Compilation of the source's `_email_rx.match(client_email)` test. -/
def email_ok (s : String) : Bool :=
  match s.data with
  | [] => false
  | c :: t =>
    if c = '@' then false
    else
      match after_amp t with
      | none => false
      | some d => d.all (fun x => x != '@') && domain_ok d

/-- Modelled from the spec wording: a client contact address has a non-empty
local part, an at sign, and a non-empty domain containing a dot with the
remainder after the dot also non-empty (each part free of at signs, as the
shape describes the unique at sign split). -/
def emailShape (s : String) : Prop :=
  ∃ l d1 d2 : List Char,
    s.data = l ++ '@' :: (d1 ++ '.' :: d2) ∧
    l ≠ [] ∧ d1 ≠ [] ∧ d2 ≠ [] ∧
    '@' ∉ l ∧ '@' ∉ d1 ∧ '@' ∉ d2

lemma tail_ok_iff (t : List Char) :
    tail_ok t = true ↔ ∃ a b : List Char, t = a ++ '.' :: b ∧ b ≠ [] := by
  induction t with
  | nil =>
    simp only [tail_ok]
    constructor
    · intro h
      exact Bool.noConfusion h
    · rintro ⟨a, b, hab, hb⟩
      exact absurd hab.symm (List.append_ne_nil_of_right_ne_nil a (List.cons_ne_nil _ _))
  | cons c t ih =>
    simp only [tail_ok, Bool.or_eq_true, Bool.and_eq_true, decide_eq_true_eq, ih]
    constructor
    · rintro (⟨hc, ht⟩ | ⟨a, b, rfl, hb⟩)
      · refine ⟨[], t, by simp [hc], ?_⟩
        simpa using ht
      · exact ⟨c :: a, b, rfl, hb⟩
    · rintro ⟨a, b, hab, hb⟩
      cases a with
      | nil =>
        simp only [List.nil_append, List.cons.injEq] at hab
        refine Or.inl ⟨hab.1, ?_⟩
        rw [hab.2]
        simpa using hb
      | cons x a2 =>
        simp only [List.cons_append, List.cons.injEq] at hab
        exact Or.inr ⟨a2, b, hab.2, hb⟩

lemma domain_ok_iff (d : List Char) :
    domain_ok d = true ↔ ∃ d1 d2 : List Char, d = d1 ++ '.' :: d2 ∧ d1 ≠ [] ∧ d2 ≠ [] := by
  cases d with
  | nil =>
    simp only [domain_ok]
    constructor
    · intro h
      exact Bool.noConfusion h
    · rintro ⟨d1, d2, hd, h1, h2⟩
      exact absurd hd.symm (List.append_ne_nil_of_right_ne_nil d1 (List.cons_ne_nil _ _))
  | cons c t =>
    simp only [domain_ok, tail_ok_iff]
    constructor
    · rintro ⟨a, b, rfl, hb⟩
      exact ⟨c :: a, b, rfl, List.cons_ne_nil _ _, hb⟩
    · rintro ⟨d1, d2, h, h1, h2⟩
      cases d1 with
      | nil => exact absurd rfl h1
      | cons x a2 =>
        simp only [List.cons_append, List.cons.injEq] at h
        exact ⟨a2, d2, h.2, h2⟩

lemma after_amp_eq_some {t d : List Char} :
    after_amp t = some d ↔ ∃ l : List Char, t = l ++ '@' :: d ∧ '@' ∉ l := by
  induction t generalizing d with
  | nil =>
    simp only [after_amp]
    constructor
    · intro h
      exact Option.noConfusion h
    · rintro ⟨l, hl, _⟩
      exact absurd hl.symm (List.append_ne_nil_of_right_ne_nil l (List.cons_ne_nil _ _))
  | cons c t ih =>
    by_cases hc : c = '@'
    · simp only [after_amp, if_pos hc, Option.some.injEq]
      constructor
      · rintro rfl
        exact ⟨[], by simp [hc], by simp⟩
      · rintro ⟨l, hl, hal⟩
        cases l with
        | nil =>
          simp only [List.nil_append, List.cons.injEq] at hl
          exact hl.2
        | cons x l2 =>
          simp only [List.cons_append, List.cons.injEq] at hl
          have hx : '@' = x := hc.symm.trans hl.1
          exact absurd (List.mem_cons.mpr (Or.inl hx)) hal
    · simp only [after_amp, if_neg hc, ih]
      constructor
      · rintro ⟨l, rfl, hal⟩
        refine ⟨c :: l, rfl, ?_⟩
        intro hmem
        rcases List.mem_cons.mp hmem with h | h
        · exact hc h.symm
        · exact hal h
      · rintro ⟨l, hl, hal⟩
        cases l with
        | nil =>
          simp only [List.nil_append, List.cons.injEq] at hl
          exact absurd hl.1 hc
        | cons x l2 =>
          simp only [List.cons_append, List.cons.injEq] at hl
          refine ⟨l2, hl.2, fun h => hal ?_⟩
          exact List.mem_cons_of_mem x h


lemma email_ok_iff_shape (s : String) : email_ok s = true ↔ emailShape s := by
  unfold email_ok emailShape
  cases hcs : s.data with
  | nil =>
    constructor
    · intro h
      exact Bool.noConfusion h
    · rintro ⟨l, d1, d2, hd, hl, -, -, -, -, -⟩
      exact absurd hd.symm (List.append_ne_nil_of_right_ne_nil l (List.cons_ne_nil _ _))
  | cons c t =>
    by_cases hc : c = '@'
    · simp only [if_pos hc]
      constructor
      · intro h
        exact Bool.noConfusion h
      · rintro ⟨l, d1, d2, hd, hl, -, -, hal, -, -⟩
        cases l with
        | nil => exact absurd rfl hl
        | cons x l2 =>
          simp only [List.cons_append, List.cons.injEq] at hd
          have hx : '@' = x := hc.symm.trans hd.1
          exact absurd (List.mem_cons.mpr (Or.inl hx)) hal
    · simp only [if_neg hc]
      cases hafter : after_amp t with
      | none =>
        constructor
        · intro h
          exact Bool.noConfusion h
        · rintro ⟨l, d1, d2, hd, hl, -, -, hal, -, -⟩
          cases l with
          | nil =>
            simp only [List.nil_append, List.cons.injEq] at hd
            exact absurd hd.1 hc
          | cons x l2 =>
            simp only [List.cons_append, List.cons.injEq] at hd
            have hsome : after_amp t = some (d1 ++ '.' :: d2) :=
              after_amp_eq_some.mpr ⟨l2, hd.2, fun h => hal (List.mem_cons_of_mem x h)⟩
            rw [hafter] at hsome
            exact Option.noConfusion hsome
      | some d =>
        rcases after_amp_eq_some.mp hafter with ⟨l2, hteq, hal2⟩
        simp only [Bool.and_eq_true, List.all_eq_true, bne_iff_ne, domain_ok_iff]
        constructor
        · rintro ⟨hnoamp, d1, d2, rfl, h1, h2⟩
          refine ⟨c :: l2, d1, d2, ?_, List.cons_ne_nil _ _, h1, h2, ?_, ?_, ?_⟩
          · rw [hteq]
            rfl
          · intro hmem
            rcases List.mem_cons.mp hmem with h | h
            · exact hc h.symm
            · exact hal2 h
          · intro hmem
            exact hnoamp '@' (List.mem_append_left _ hmem) rfl
          · intro hmem
            exact hnoamp '@' (List.mem_append_right _ (List.mem_cons_of_mem _ hmem)) rfl
        · rintro ⟨l, d1, d2, hd, hl, h1, h2, hal, had1, had2⟩
          cases l with
          | nil =>
            simp only [List.nil_append, List.cons.injEq] at hd
            exact absurd hd.1 hc
          | cons x l3 =>
            simp only [List.cons_append, List.cons.injEq] at hd
            have hsome : after_amp t = some (d1 ++ '.' :: d2) :=
              after_amp_eq_some.mpr ⟨l3, hd.2, fun h => hal (List.mem_cons_of_mem x h)⟩
            rw [hafter] at hsome
            have hdd : d = d1 ++ '.' :: d2 := Option.some.inj hsome
            refine ⟨?_, d1, d2, hdd, h1, h2⟩
            intro x2 hx2
            rw [hdd] at hx2
            rcases List.mem_append.mp hx2 with h | h
            · intro hx
              exact had1 (hx ▸ h)
            · rcases List.mem_cons.mp h with h | h
              · intro hx
                exact absurd (hx ▸ h) (by decide)
              · intro hx
                exact had2 (hx ▸ h)

/-! ### Data model (src/backend/app.py lines 50-57) -/

deriving instance DecidableEq for Except

/-- The three request-level error kinds raised by the handlers:
`HTTPException(404, "gig not found")`, `HTTPException(404, "unknown gent id")`
and `HTTPException(400, "invalid email")`. -/
inductive Err
  | notFound
  | unknownWorker
  | validation
deriving DecidableEq, Repr

/-- One record of the `gigs` dict: `{"id": ..., "date": ..., "client_email": ..., "fee": ...}`. -/
structure Gig where
  id : String
  date : String
  client_email : String
  fee : Int
deriving DecidableEq, Repr

/-- The fixed worker roster `GENTS`. -/
def GENTS : List String := ["gent-1", "gent-2", "gent-3", "gent-4", "gent-5"]

/-- The mutable store: the `gigs` dict and the `gig_assignments` dict. -/
structure Store where
  gigs : List (String × Gig)
  assigns : List (String × Finset String)
deriving DecidableEq

/-! ### Realtime half (src/backend/app.py lines 10-27) -/

/-- A live websocket channel; `ok` records whether `send_json` on it succeeds. -/
structure Chan where
  ok : Bool
deriving DecidableEq

/-- One `ws.send_json(payload)` call: fails exactly when the channel is broken. -/
def ws_send_json (c : Chan) (_payload : String) : Except Unit Unit :=
  if c.ok then Except.ok () else Except.error ()

/-- The `for ws in list(...)` loop body of `send_to_user`: each send is wrapped
in try/except, so a failure is recorded and the loop continues. -/
def send_loop (payload : String) : List Chan → List Bool
  | [] => []
  | c :: rest =>
    (match ws_send_json c payload with
     | Except.ok _ => true
     | Except.error _ => false) :: send_loop payload rest

/-- `send_to_user(user_id, payload)`: deliver to every live channel of the
identity, swallowing per-channel failures.  The returned list records, per
channel, whether its send succeeded. -/
def send_to_user (conns : List (String × List Chan)) (user_id payload : String) :
    Except Unit (List Bool) :=
  Except.ok (send_loop payload (dget conns user_id []))

/-! ### Gig endpoints (src/backend/app.py lines 61-142)

Each mutating handler returns the possibly-mutated store together with either
the HTTP response value or the raised error.  `create_gig` takes the freshly
generated uuid as an explicit argument `gid`.  Update and assignment results
carry the `Finset` of identities to which a `gigs_changed` notification is
initiated by that call (the Python loop over a set fires exactly one
`send_to_user` per member). -/

/-- `POST /gigs` (create_gig). -/
def create_gig (st : Store) (gid date client_email : String) (fee : Int) :
    Store × Except Err Gig :=
  if email_ok client_email then
    let g : Gig := ⟨gid, date, client_email, fee⟩
    (⟨dset st.gigs gid g, dset st.assigns gid ∅⟩, Except.ok g)
  else
    (st, Except.error Err.validation)

/-- `GET /gigs` (list_gigs): each gig with its sorted assignee list. -/
def list_gigs (st : Store) : List (Gig × List String) :=
  st.gigs.map (fun p => (p.2, (dget st.assigns p.1 ∅).sort StrLe))

/-- `PATCH /gigs/{gig_id}` (update_gig).  Note the source order: the date
field is written before the email is validated, and the fee after. -/
def update_gig (st : Store) (gig_id : String) (date client_email : Option String)
    (fee : Option Int) : Store × Except Err (Gig × Finset String) :=
  match dlookup st.gigs gig_id with
  | none => (st, Except.error Err.notFound)
  | some g =>
    let g1 := match date with
      | some d => { g with date := d }
      | none => g
    match client_email with
    | some e =>
      if email_ok e then
        let g2 := { g1 with client_email := e }
        let g3 := match fee with
          | some f => { g2 with fee := f }
          | none => g2
        ({ st with gigs := dset st.gigs gig_id g3 },
          Except.ok (g3, dget st.assigns gig_id ∅))
      else
        ({ st with gigs := dset st.gigs gig_id g1 }, Except.error Err.validation)
    | none =>
      let g3 := match fee with
        | some f => { g1 with fee := f }
        | none => g1
      ({ st with gigs := dset st.gigs gig_id g3 },
        Except.ok (g3, dget st.assigns gig_id ∅))

/-- `POST /gigs/{gig_id}/assign` (assign_gent).  Returns the sorted assignee
list and the set of identities notified by this call. -/
def assign_gent (st : Store) (gig_id gent_id : String) (assigned : Bool) :
    Store × Except Err (List String × Finset String) :=
  if gent_id ∈ GENTS then
    match dlookup st.gigs gig_id with
    | none => (st, Except.error Err.notFound)
    | some _ =>
      let s := dget st.assigns gig_id ∅
      let before : Bool := decide (gent_id ∈ s)
      let s2 := if assigned then insert gent_id s else s.erase gent_id
      let notified : Finset String := if before != assigned then {gent_id} else ∅
      ({ st with assigns := dset st.assigns gig_id s2 },
        Except.ok (s2.sort StrLe, notified))
  else
    (st, Except.error Err.unknownWorker)

/-- Sort key comparison for `GET /gent/{gent_id}/gigs`: Python's tuple order
on `(x.get("date", ""), x["id"])`. -/
def gigLeB (a b : Gig) : Bool :=
  strLtB a.date.data b.date.data || (decide (a.date = b.date) && strLeB a.id.data b.id.data)

/-- `GET /gent/{gent_id}/gigs` (gigs_for_gent). -/
def gigs_for_gent (st : Store) (gent_id : String) : Except Err (List Gig) :=
  if gent_id ∈ GENTS then
    Except.ok
      (((st.gigs.filter (fun p => decide (gent_id ∈ dget st.assigns p.1 ∅))).map Prod.snd).mergeSort
        gigLeB)
  else
    Except.error Err.unknownWorker

/-- Referential-integrity invariant of the store: every stored gig has an
assignment-set entry, and every identity in any assignment set is in `GENTS`. -/
def StoreInv (st : Store) : Prop :=
  (∀ p ∈ st.gigs, (dlookup st.assigns p.1).isSome = true) ∧
  (∀ q ∈ st.assigns, ∀ w ∈ q.2, w ∈ GENTS)

/-! ### Sample states used by concrete witnesses -/

/-- A sample stored gig record. -/
def sampleGig : Gig := ⟨"g1", "2025-01-01", "a@b.c", 5⟩

/-- A store holding one gig with one assignee, as produced by CreateGig
followed by SetAssignment. -/
def sampleStore : Store := ⟨[("g1", sampleGig)], [("g1", {"gent-1"})]⟩

/-! ### Order lemmas for the sort relations -/

lemma strLeB_trans (s t u : List Char) (h1 : strLeB s t = true) (h2 : strLeB t u = true) :
    strLeB s u = true := by
  simp only [strLeB, Bool.not_eq_true'] at *
  cases hus : strLtB u s with
  | false => rfl
  | true =>
    rcases strLtB_connex t s with h | h | h
    · rw [h] at h1
      exact Bool.noConfusion h1
    · have h3 := strLtB_trans _ _ _ hus h
      rw [h3] at h2
      exact Bool.noConfusion h2
    · rw [h] at h2
      rw [hus] at h2
      exact Bool.noConfusion h2

lemma strLeB_total_or (s t : List Char) : strLeB s t = true ∨ strLeB t s = true := by
  simp only [strLeB, Bool.not_eq_true']
  cases h : strLtB t s with
  | false => exact Or.inl rfl
  | true =>
    cases h2 : strLtB s t with
    | false => exact Or.inr rfl
    | true => exact absurd h2 (fun hh => strLtB_asymm h hh)

lemma gigLeB_trans (a b c : Gig) (hab : gigLeB a b = true) (hbc : gigLeB b c = true) :
    gigLeB a c = true := by
  simp only [gigLeB, Bool.or_eq_true, Bool.and_eq_true, decide_eq_true_eq] at *
  rcases hab with h1 | ⟨h1, h2⟩ <;> rcases hbc with h3 | ⟨h3, h4⟩
  · exact Or.inl (strLtB_trans _ _ _ h1 h3)
  · exact Or.inl (h3 ▸ h1)
  · exact Or.inl (h1.symm ▸ h3)
  · exact Or.inr ⟨h1.trans h3, strLeB_trans _ _ _ h2 h4⟩

lemma gigLeB_total (a b : Gig) : (gigLeB a b || gigLeB b a) = true := by
  simp only [gigLeB, Bool.or_eq_true, Bool.and_eq_true, decide_eq_true_eq]
  rcases strLtB_connex a.date.data b.date.data with h | h | h
  · exact Or.inl (Or.inl h)
  · exact Or.inr (Or.inl h)
  · have hd : a.date = b.date := string_eq_of_data_eq h
    rcases strLeB_total_or a.id.data b.id.data with h2 | h2
    · exact Or.inl (Or.inr ⟨hd, h2⟩)
    · exact Or.inr (Or.inr ⟨hd.symm, h2⟩)

lemma send_loop_eq_map (payload : String) (l : List Chan) :
    send_loop payload l = l.map Chan.ok := by
  induction l with
  | nil => rfl
  | cons c rest ih =>
    cases hc : c.ok <;> simp [send_loop, ws_send_json, hc, ih]

/-! ### Claim theorems -/

/-- C1: the claim states an atomic all-or-nothing patch: an UpdateGig whose
clientEmail is present and invalid must fail with ValidationError and leave
date, client contact address and fee all unchanged.  The code applies the
date field before validating the email, so this evaluation shows the
divergence: on a patch carrying a new date, an invalid email and a new fee,
the call fails with ValidationError, yet the stored gig's date has changed
(client contact and fee are unchanged). -/
theorem update_gig_applies_date_despite_invalid_email :
    update_gig ⟨[("g1", ⟨"g1", "2025-01-01", "a@b.c", 5⟩)], [("g1", ∅)]⟩ "g1"
        (some "2025-02-02") (some "bad") (some 7) =
      (⟨[("g1", ⟨"g1", "2025-02-02", "a@b.c", 5⟩)], [("g1", ∅)]⟩,
        Except.error Err.validation) := by
  rfl

/-- C2 counterexample: the claim states that every SetAssignment call with an
unknown gigId fails with NotFoundError for any workerId, whether or not it is
in the Roster.  On an unknown gig id and a workerId outside the roster the
code checks the roster first and fails with UnknownWorkerError instead. -/
theorem assign_gent_unknown_gig_unknown_worker :
    (assign_gent ⟨[], []⟩ "nope" "gent-9" true).2 = Except.error Err.unknownWorker ∧
    (assign_gent ⟨[], []⟩ "nope" "gent-9" true).2 ≠ Except.error Err.notFound := by
  decide

/-- C2 amended: the roster check precedes the gig-existence check: a
SetAssignment call whose workerId is not in the Roster fails with
UnknownWorkerError (even when the gigId is also unknown); a call whose
workerId is in the Roster but whose gigId is not stored fails with
NotFoundError; in both failure cases the store, and so the assignment
relation, is returned unchanged. -/
theorem assign_gent_error_precedence (st : Store) (gid w : String) (b : Bool) :
    (w ∉ GENTS → assign_gent st gid w b = (st, Except.error Err.unknownWorker)) ∧
    (w ∈ GENTS → dlookup st.gigs gid = none →
      assign_gent st gid w b = (st, Except.error Err.notFound)) := by
  constructor
  · intro h
    simp [assign_gent, h]
  · intro h1 h2
    simp [assign_gent, h1, h2]

/-- C2 witness: the amended claim applied at concrete inputs on the empty
store. -/
theorem assign_gent_error_precedence_witness :
    assign_gent ⟨[], []⟩ "g1" "gent-9" true = (⟨[], []⟩, Except.error Err.unknownWorker) ∧
    assign_gent ⟨[], []⟩ "g1" "gent-1" true = (⟨[], []⟩, Except.error Err.notFound) :=
  ⟨(assign_gent_error_precedence ⟨[], []⟩ "g1" "gent-9" true).1 (by decide),
   (assign_gent_error_precedence ⟨[], []⟩ "g1" "gent-1" true).2 (by decide) (by rfl)⟩

/-- C8: Push (send_to_user) never surfaces an error to its caller: it always
returns ok, with one delivery attempt per live channel of the identity whose
outcome is that channel's own success bit (a failing channel does not abort
the other channels' deliveries), and for an identity with zero live channels
it is a safe no-op returning ok with no attempts. -/
theorem send_to_user_never_fails (conns : List (String × List Chan)) (uid payload : String) :
    send_to_user conns uid payload = Except.ok ((dget conns uid []).map Chan.ok) ∧
    (dget conns uid [] = [] → send_to_user conns uid payload = Except.ok []) := by
  refine ⟨?_, fun h => ?_⟩
  · simp [send_to_user, send_loop_eq_map]
  · simp [send_to_user, h, send_loop]

/-- C8 witness: a broken middle channel does not stop delivery to the other
two channels, and pushing to an identity with no channels is a no-op. -/
theorem send_to_user_never_fails_witness :
    send_to_user [("gent-1", [⟨true⟩, ⟨false⟩, ⟨true⟩])] "gent-1" "x" =
      Except.ok ((dget [("gent-1", [⟨true⟩, ⟨false⟩, ⟨true⟩])] "gent-1" []).map Chan.ok) ∧
    send_to_user [] "gent-2" "x" = Except.ok [] :=
  ⟨(send_to_user_never_fails [("gent-1", [⟨true⟩, ⟨false⟩, ⟨true⟩])] "gent-1" "x").1,
   (send_to_user_never_fails [] "gent-2" "x").2 (by rfl)⟩

/-- C10: an UpdateGig on an existing gig with all three optional fields
absent succeeds, returns the stored record completely unchanged (and the
store unchanged), and still initiates a gigs_changed notification to every
identity currently assigned to the gig: the returned notification set is the
gig's full current assignment set, unconditionally on any field being
present. -/
theorem update_gig_empty_patch (st : Store) (gid : String) (g : Gig)
    (h : dlookup st.gigs gid = some g) :
    update_gig st gid none none none = (st, Except.ok (g, dget st.assigns gid ∅)) := by
  have h2 : update_gig st gid none none none =
      ({ st with gigs := dset st.gigs gid g }, Except.ok (g, dget st.assigns gid ∅)) := by
    unfold update_gig
    rw [h]
  rw [h2, dset_eq_of_dlookup h]

/-- C10 witness: the empty patch on the sample store returns the stored
record and notifies the assignee set of the gig. -/
theorem update_gig_empty_patch_witness :
    update_gig sampleStore "g1" none none none =
      (sampleStore, Except.ok (sampleGig, dget sampleStore.assigns "g1" ∅)) :=
  update_gig_empty_patch sampleStore "g1" sampleGig (by rfl)

/-- C3: every successful UpdateGig call initiates gigs_changed notifications
to exactly the identities currently assigned to the gig, one per assignee
(multiplicity one in the notified multiset), and none when the assignment
set is empty at the time of the update, regardless of which fields the patch
carried. -/
theorem update_gig_notifies_assignees (st : Store) (gid : String)
    (d e : Option String) (f : Option Int) (st2 : Store) (g : Gig)
    (notif : Finset String)
    (h : update_gig st gid d e f = (st2, Except.ok (g, notif))) :
    notif = dget st.assigns gid ∅ ∧
    (∀ x, notif.val.count x = if x ∈ dget st.assigns gid ∅ then 1 else 0) ∧
    (dget st.assigns gid ∅ = ∅ → notif = ∅) := by
  have hn : notif = dget st.assigns gid ∅ := by
    unfold update_gig at h
    cases hlk : dlookup st.gigs gid with
    | none =>
      rw [hlk] at h
      simp at h
    | some g0 =>
      rw [hlk] at h
      cases e with
      | none =>
        simp only [Prod.mk.injEq, Except.ok.injEq] at h
        exact h.2.2.symm
      | some ev =>
        cases hok : email_ok ev with
        | true =>
          simp only [hok, if_true, Prod.mk.injEq, Except.ok.injEq] at h
          exact h.2.2.symm
        | false =>
          simp [hok] at h
  refine ⟨hn, fun x => ?_, fun hempty => hn.trans hempty⟩
  rw [hn]
  by_cases hx : x ∈ dget st.assigns gid ∅
  · rw [if_pos hx]
    exact Multiset.count_eq_one_of_mem (dget st.assigns gid ∅).nodup hx
  · rw [if_neg hx]
    exact Multiset.count_eq_zero_of_not_mem hx

/-- C3 witness: a date-only patch on the sample store (one assignee) notifies
exactly that assignee. -/
theorem update_gig_notifies_assignees_witness :
    ({"gent-1"} : Finset String) = dget sampleStore.assigns "g1" ∅ :=
  (update_gig_notifies_assignees sampleStore "g1" (some "2025-03-03") none none
    ⟨[("g1", ⟨"g1", "2025-03-03", "a@b.c", 5⟩)], [("g1", {"gent-1"})]⟩
    ⟨"g1", "2025-03-03", "a@b.c", 5⟩ {"gent-1"} (by rfl)).1

/-- C6: CreateGig validates the client contact address exactly against the
syntactic shape of the spec (the equivalence of the code's regex test with
the declarative shape is the first conjunct); it rejects the three sample
bad addresses; on an invalid address it fails with ValidationError and the
store is returned unchanged; on a valid address it stores the record under
the fresh id, initializes an empty assignment set for it, and returns the
full record. -/
theorem create_gig_spec :
    (∀ ce : String, email_ok ce = true ↔ emailShape ce) ∧
    (email_ok "bad" = false ∧ email_ok "bad@nodot" = false ∧
      email_ok "@missing-local.com" = false) ∧
    (∀ (st : Store) (gid date ce : String) (fee : Int), email_ok ce = false →
      create_gig st gid date ce fee = (st, Except.error Err.validation)) ∧
    (∀ (st : Store) (gid date ce : String) (fee : Int), email_ok ce = true →
      create_gig st gid date ce fee =
        (⟨dset st.gigs gid ⟨gid, date, ce, fee⟩, dset st.assigns gid ∅⟩,
          Except.ok ⟨gid, date, ce, fee⟩) ∧
      dlookup (create_gig st gid date ce fee).1.gigs gid = some ⟨gid, date, ce, fee⟩ ∧
      dlookup (create_gig st gid date ce fee).1.assigns gid = some ∅) := by
  refine ⟨email_ok_iff_shape, ⟨by decide, by decide, by decide⟩, ?_, ?_⟩
  · intro st gid date ce fee h
    simp [create_gig, h]
  · intro st gid date ce fee h
    have he : create_gig st gid date ce fee =
        (⟨dset st.gigs gid ⟨gid, date, ce, fee⟩, dset st.assigns gid ∅⟩,
          Except.ok ⟨gid, date, ce, fee⟩) := by
      simp [create_gig, h]
    refine ⟨he, ?_, ?_⟩
    · rw [he]
      exact dlookup_dset_self _ _ _
    · rw [he]
      exact dlookup_dset_self _ _ _

/-- C6 witness: creation is rejected on the address "bad" leaving the empty
store unchanged, and succeeds on a well-shaped address, storing the record. -/
theorem create_gig_spec_witness :
    create_gig ⟨[], []⟩ "g1" "2025-01-01" "bad" 0 = (⟨[], []⟩, Except.error Err.validation) ∧
    dlookup (create_gig ⟨[], []⟩ "g1" "2025-01-01" "client@example.com" 0).1.gigs "g1" =
      some ⟨"g1", "2025-01-01", "client@example.com", 0⟩ :=
  ⟨create_gig_spec.2.2.1 ⟨[], []⟩ "g1" "2025-01-01" "bad" 0 (by decide),
   (create_gig_spec.2.2.2 ⟨[], []⟩ "g1" "2025-01-01" "client@example.com" 0 (by decide)).2.1⟩

/-- C7: the referential-integrity invariant is preserved by every store
operation: after any CreateGig, UpdateGig or SetAssignment call (the read
operations list_gigs and gigs_for_gent are pure functions of the store and
mutate nothing), every stored gig still has an assignment-set entry and
every identity in any assignment set is still a member of GENTS. -/
theorem store_invariant_preserved (st : Store) (h : StoreInv st) :
    (∀ (gid date ce : String) (fee : Int), StoreInv (create_gig st gid date ce fee).1) ∧
    (∀ (gid : String) (d e : Option String) (f : Option Int),
      StoreInv (update_gig st gid d e f).1) ∧
    (∀ (gid w : String) (b : Bool), StoreInv (assign_gent st gid w b).1) := by
  obtain ⟨h1, h2⟩ := h
  refine ⟨?_, ?_, ?_⟩
  · intro gid date ce fee
    cases hok : email_ok ce with
    | false =>
      simp only [create_gig, hok, Bool.false_eq_true, if_false]
      exact ⟨h1, h2⟩
    | true =>
      simp only [create_gig, hok, if_true]
      constructor
      · intro p hp
        rcases mem_dset hp with rfl | hp2
        · simp [dlookup_dset_self]
        · by_cases hk : p.1 = gid
          · rw [hk, dlookup_dset_self]
            rfl
          · rw [dlookup_dset_ne _ _ _ _ hk]
            exact h1 p hp2
      · intro q hq
        rcases mem_dset hq with rfl | hq2
        · intro w hw
          exact absurd hw (Finset.not_mem_empty w)
        · exact h2 q hq2
  · intro gid d e f
    cases hlk : dlookup st.gigs gid with
    | none =>
      have heq : update_gig st gid d e f = (st, Except.error Err.notFound) := by
        unfold update_gig
        rw [hlk]
      rw [heq]
      exact ⟨h1, h2⟩
    | some g0 =>
      have key : ∀ gX : Gig, StoreInv ⟨dset st.gigs gid gX, st.assigns⟩ := by
        intro gX
        constructor
        · intro p hp
          rcases mem_dset hp with rfl | hp2
          · simpa using h1 (gid, g0) (dlookup_mem hlk)
          · exact h1 p hp2
        · exact h2
      unfold update_gig
      rw [hlk]
      cases e with
      | none => exact key _
      | some ev =>
        cases hok : email_ok ev with
        | true =>
          simp only [hok, if_true]
          exact key _
        | false =>
          simp only [hok, Bool.false_eq_true, if_false]
          exact key _
  · intro gid w b
    by_cases hw : w ∈ GENTS
    · cases hlk : dlookup st.gigs gid with
      | none =>
        have heq : assign_gent st gid w b = (st, Except.error Err.notFound) := by
          simp [assign_gent, hw, hlk]
        rw [heq]
        exact ⟨h1, h2⟩
      | some g0 =>
        have hs : ∀ x ∈ dget st.assigns gid ∅, x ∈ GENTS := by
          intro x hx
          unfold dget at hx
          cases hl2 : dlookup st.assigns gid with
          | none =>
            rw [hl2] at hx
            exact absurd hx (Finset.not_mem_empty x)
          | some s0 =>
            rw [hl2] at hx
            exact h2 (gid, s0) (dlookup_mem hl2) x hx
        have key : StoreInv ⟨st.gigs, dset st.assigns gid
            (if b then insert w (dget st.assigns gid ∅)
             else (dget st.assigns gid ∅).erase w)⟩ := by
          constructor
          · intro p hp
            by_cases hk : p.1 = gid
            · rw [hk, dlookup_dset_self]
              rfl
            · rw [dlookup_dset_ne _ _ _ _ hk]
              exact h1 p hp
          · intro q hq
            rcases mem_dset hq with rfl | hq2
            · intro x hx
              cases b with
              | true =>
                rcases Finset.mem_insert.mp hx with rfl | hx2
                · exact hw
                · exact hs x hx2
              | false =>
                exact hs x (Finset.mem_of_mem_erase hx)
            · exact h2 q hq2
        unfold assign_gent
        rw [if_pos hw, hlk]
        exact key
    · have heq : assign_gent st gid w b = (st, Except.error Err.unknownWorker) := by
        simp [assign_gent, hw]
      rw [heq]
      exact ⟨h1, h2⟩

/-- C7 witness: the invariant holds of the empty store and is carried through
a concrete CreateGig call. -/
theorem store_invariant_preserved_witness :
    StoreInv (create_gig ⟨[], []⟩ "g1" "2025-01-01" "client@example.com" 0).1 :=
  (store_invariant_preserved ⟨[], []⟩
    ⟨fun p hp => absurd hp (List.not_mem_nil p),
     fun q hq => absurd hq (List.not_mem_nil q)⟩).1 "g1" "2025-01-01" "client@example.com" 0

/-- C4: SetAssignment is idempotent: on a stored gig and roster worker the
first call succeeds returning a sorted assignee list with at most one
notification, and an immediately repeated identical call succeeds with the
same sorted list, fires no notification, and leaves the store exactly as the
first call left it; moreover if the desired state already matches current
membership, the first call already fires no notification and returns the
current (unchanged) sorted set. -/
theorem assign_gent_idempotent (st : Store) (gid w : String) (b : Bool) (g : Gig)
    (hg : dlookup st.gigs gid = some g) (hw : w ∈ GENTS) :
    (∃ l n1, (assign_gent st gid w b).2 = Except.ok (l, n1)) ∧
    (∀ (l : List String) (n1 : Finset String),
      (assign_gent st gid w b).2 = Except.ok (l, n1) →
      (assign_gent (assign_gent st gid w b).1 gid w b).2 = Except.ok (l, ∅) ∧
      n1.card ≤ 1 ∧
      (assign_gent (assign_gent st gid w b).1 gid w b).1 = (assign_gent st gid w b).1 ∧
      ((b = true ↔ w ∈ dget st.assigns gid ∅) →
        n1 = ∅ ∧ l = (dget st.assigns gid ∅).sort StrLe)) := by
  have e1 : assign_gent st gid w b =
      ({ st with assigns := (dset st.assigns gid
          (if b then insert w (dget st.assigns gid ∅) else (dget st.assigns gid ∅).erase w)) },
        Except.ok
          ((if b then insert w (dget st.assigns gid ∅)
            else (dget st.assigns gid ∅).erase w).sort StrLe,
           if (decide (w ∈ dget st.assigns gid ∅)) != b then {w} else ∅)) := by
    unfold assign_gent
    rw [if_pos hw, hg]
  set s : Finset String := dget st.assigns gid ∅ with hs
  set s2 : Finset String := if b then insert w s else s.erase w with hs2
  have hget1 : dget (dset st.assigns gid s2) gid ∅ = s2 := dget_dset_self _ _ _ _
  have hmem2 : (decide (w ∈ s2)) = b := by
    cases b with
    | true => simp [hs2]
    | false => simp [hs2]
  have hs2i : (if b then insert w s2 else s2.erase w) = s2 := by
    cases b with
    | true => simp [hs2, Finset.insert_idem]
    | false => simp [hs2, Finset.erase_idem]
  have e2 : assign_gent { st with assigns := dset st.assigns gid s2 } gid w b =
      ({ st with assigns := dset st.assigns gid s2 }, Except.ok (s2.sort StrLe, ∅)) := by
    unfold assign_gent
    rw [if_pos hw]
    rw [show dlookup ({ st with assigns := dset st.assigns gid s2 } : Store).gigs gid
          = some g from hg]
    simp only [hget1, hmem2, hs2i, bne_self_eq_false, Bool.false_eq_true, if_false, dset_dset]
  refine ⟨⟨s2.sort StrLe, (if (decide (w ∈ s)) != b then {w} else ∅), by rw [e1]⟩, ?_⟩
  intro l n1 hln
  rw [e1] at hln
  simp only [Except.ok.injEq, Prod.mk.injEq] at hln
  obtain ⟨hl, hn1⟩ := hln
  refine ⟨?_, ?_, ?_, ?_⟩
  · rw [e1]
    show (assign_gent { st with assigns := dset st.assigns gid s2 } gid w b).2
      = Except.ok (l, ∅)
    rw [e2, ← hl]
  · rw [← hn1]
    cases hb : (decide (w ∈ s)) != b with
    | true => simp
    | false => simp
  · rw [e1]
    show (assign_gent { st with assigns := dset st.assigns gid s2 } gid w b).1
      = ({ st with assigns := dset st.assigns gid s2 } : Store)
    rw [e2]
  · intro hiff
    cases b with
    | true =>
      have hwm : w ∈ s := hiff.mp rfl
      constructor
      · rw [← hn1]
        simp [hwm]
      · rw [← hl, hs2]
        simp [Finset.insert_eq_self.mpr hwm]
    | false =>
      have hwn : w ∉ s := fun hm => by simpa using hiff.mpr hm
      constructor
      · rw [← hn1]
        simp [hwn]
      · rw [← hl, hs2]
        simp [Finset.erase_eq_of_not_mem hwn]


unseal List.merge List.mergeSort in
/-- C4 witness: assigning "gent-2" twice to the sample gig returns the same
sorted list both times, with the second call firing no notification; the one
notification of the first call has cardinality one. -/
theorem assign_gent_idempotent_witness :
    (assign_gent (assign_gent sampleStore "g1" "gent-2" true).1 "g1" "gent-2" true).2 =
      Except.ok (["gent-1", "gent-2"], ∅) ∧
    ({"gent-2"} : Finset String).card ≤ 1 := by
  have h := (assign_gent_idempotent sampleStore "g1" "gent-2" true sampleGig rfl
      (by decide)).2 ["gent-1", "gent-2"] {"gent-2"} (by rfl)
  exact ⟨h.1, h.2.1⟩

/-- C5: ListGigsForWorker fails with UnknownWorkerError exactly off the
roster; on the roster it succeeds, and the returned list contains a gig
record exactly when it is stored under some key whose current assignment set
contains the worker, sorted ascending by the (date, identifier) key with the
date compared as a plain string and the identifier as tiebreak. -/
theorem gigs_for_gent_spec (st : Store) (w : String) :
    (w ∉ GENTS → gigs_for_gent st w = Except.error Err.unknownWorker) ∧
    (w ∈ GENTS → ∃ l, gigs_for_gent st w = Except.ok l) ∧
    (∀ l, gigs_for_gent st w = Except.ok l →
      (∀ g : Gig, g ∈ l ↔ ∃ k, (k, g) ∈ st.gigs ∧ w ∈ dget st.assigns k ∅) ∧
      List.Pairwise (fun a b => gigLeB a b = true) l) := by
  refine ⟨fun h => ?_, fun h => ?_, fun l hl => ?_⟩
  · simp [gigs_for_gent, h]
  · exact ⟨((st.gigs.filter (fun p => decide (w ∈ dget st.assigns p.1 ∅))).map
        Prod.snd).mergeSort gigLeB, by simp [gigs_for_gent, h]⟩
  · by_cases h : w ∈ GENTS
    · rw [show gigs_for_gent st w = Except.ok
          (((st.gigs.filter (fun p => decide (w ∈ dget st.assigns p.1 ∅))).map
            Prod.snd).mergeSort gigLeB) from by simp [gigs_for_gent, h]] at hl
      rw [← Except.ok.inj hl]
      constructor
      · intro g
        rw [List.mem_mergeSort]
        simp only [List.mem_map, List.mem_filter, decide_eq_true_eq]
        constructor
        · rintro ⟨p, ⟨hp, hw2⟩, rfl⟩
          exact ⟨p.1, hp, hw2⟩
        · rintro ⟨k, hk, hw2⟩
          exact ⟨(k, g), ⟨hk, hw2⟩, rfl⟩
      · exact List.sorted_mergeSort gigLeB_trans gigLeB_total _
    · simp [gigs_for_gent, h] at hl

unseal List.merge List.mergeSort in
/-- C5 witness: off-roster lookup fails; the roster worker assigned to the
sample gig gets exactly that gig back, in sorted order. -/
theorem gigs_for_gent_spec_witness :
    gigs_for_gent sampleStore "gent-9" = Except.error Err.unknownWorker ∧
    gigs_for_gent sampleStore "gent-1" = Except.ok [sampleGig] ∧
    List.Pairwise (fun a b => gigLeB a b = true) [sampleGig] := by
  refine ⟨(gigs_for_gent_spec sampleStore "gent-9").1 (by decide), rfl, ?_⟩
  exact ((gigs_for_gent_spec sampleStore "gent-1").2.2 [sampleGig] (by rfl)).2

unseal List.merge List.mergeSort in
/-- C9 counterexample: the claim states the round trip restores the
pre-assignment sequence for every stored gig and roster worker.  On the
sample store, where "gent-1" is already assigned, assigning then unassigning
"gent-1" ends with the empty assignee sequence, not the original
["gent-1"]. -/
theorem assign_roundtrip_not_restoring :
    (assign_gent (assign_gent sampleStore "g1" "gent-1" true).1 "g1" "gent-1" false).2 =
      Except.ok (([] : List String), {"gent-1"}) ∧
    (dget sampleStore.assigns "g1" ∅).sort StrLe = ["gent-1"] ∧
    (([] : List String) ≠ ["gent-1"]) := by
  refine ⟨rfl, rfl, by decide⟩

/-- C9 amended: after SetAssignment(g, w, true) then SetAssignment(g, w,
false) the assignment set of g is the pre-state with w removed, and the
second call returns its sorted sequence; so the round trip restores the
pre-assignment state exactly when w was not assigned before the first
call. -/
theorem assign_roundtrip_amended (st : Store) (gid w : String) (g : Gig)
    (hg : dlookup st.gigs gid = some g) (hw : w ∈ GENTS) :
    (assign_gent (assign_gent st gid w true).1 gid w false).2 =
      Except.ok (((dget st.assigns gid ∅).erase w).sort StrLe, {w}) ∧
    dget (assign_gent (assign_gent st gid w true).1 gid w false).1.assigns gid ∅ =
      (dget st.assigns gid ∅).erase w ∧
    (w ∉ dget st.assigns gid ∅ →
      (dget st.assigns gid ∅).erase w = dget st.assigns gid ∅) := by
  have e1 : assign_gent st gid w true =
      ({ st with assigns := (dset st.assigns gid (insert w (dget st.assigns gid ∅))) },
        Except.ok ((insert w (dget st.assigns gid ∅)).sort StrLe,
          if (decide (w ∈ dget st.assigns gid ∅)) != true then {w} else ∅)) := by
    unfold assign_gent
    rw [if_pos hw, hg]
    rfl
  set s : Finset String := dget st.assigns gid ∅ with hs
  have hget1 : dget (dset st.assigns gid (insert w s)) gid ∅ = insert w s :=
    dget_dset_self _ _ _ _
  have e2 : assign_gent { st with assigns := (dset st.assigns gid (insert w s)) } gid w false =
      ({ st with assigns := (dset st.assigns gid (s.erase w)) },
        Except.ok ((s.erase w).sort StrLe, {w})) := by
    unfold assign_gent
    rw [if_pos hw]
    rw [show dlookup ({ st with assigns := (dset st.assigns gid (insert w s)) } : Store).gigs
          gid = some g from hg]
    simp [hget1, dset_dset, Finset.erase_insert_eq_erase]
  refine ⟨?_, ?_, fun hnm => Finset.erase_eq_of_not_mem hnm⟩
  · rw [e1]
    show (assign_gent { st with assigns := (dset st.assigns gid (insert w s)) } gid w false).2
      = Except.ok ((s.erase w).sort StrLe, {w})
    rw [e2]
  · rw [e1]
    show dget (assign_gent { st with assigns := (dset st.assigns gid (insert w s)) }
        gid w false).1.assigns gid ∅ = s.erase w
    rw [e2]
    exact dget_dset_self _ _ _ _

/-- C9 witness for the amended claim: the round trip on a worker not
previously assigned restores the sample store's assignee set. -/
theorem assign_roundtrip_amended_witness :
    (assign_gent (assign_gent sampleStore "g1" "gent-2" true).1 "g1" "gent-2" false).2 =
      Except.ok (((dget sampleStore.assigns "g1" ∅).erase "gent-2").sort StrLe, {"gent-2"}) ∧
    (dget sampleStore.assigns "g1" ∅).erase "gent-2" = dget sampleStore.assigns "g1" ∅ :=
  ⟨(assign_roundtrip_amended sampleStore "g1" "gent-2" sampleGig rfl (by decide)).1,
   (assign_roundtrip_amended sampleStore "g1" "gent-2" sampleGig rfl (by decide)).2.2
     (by decide)⟩
